import Mathlib

/-!
Verification of the telemetry collector (`telemetry_collector.py`).

The development shallowly embeds the sampling/aggregation engine:

* the per-tick rate computation from cumulative OS counters
  (lines 143-146 of `collect_telemetry`),
* the top-process ranking with per-process failure tolerance
  (lines 150-163),
* the fixed-count sampling loop with its `KeyboardInterrupt`-only
  handler and the final `write_csv` call (lines 125-184),
* the CSV schema construction and row rendering of `write_csv`
  (lines 48-99).

Machine reals (Python floats) are modelled as rationals `ℚ`; the
claims about the rate formula are about exact field arithmetic, which
`ℚ` captures up to floating rounding.  OS-supplied values (counter
readings, process observations, timestamps) are universally
quantified inputs.
-/

/-! ### RateTracker: cumulative counters and per-second rates

Embeds lines 122-148 of `collect_telemetry`.  `psutil.net_io_counters()`
yields cumulative `bytes_sent`/`bytes_recv`; `psutil.disk_io_counters()`
yields cumulative `read_bytes`/`write_bytes`. -/

/-- Cumulative network counters as returned by `psutil.net_io_counters()`. -/
structure NetCounters where
  bytes_sent : ℚ
  bytes_recv : ℚ

/-- Cumulative disk counters as returned by `psutil.disk_io_counters()`. -/
structure DiskCounters where
  read_bytes : ℚ
  write_bytes : ℚ

/-- The four per-second rates computed in one tick. -/
structure TickRates where
  net_sent : ℚ
  net_recv : ℚ
  disk_r : ℚ
  disk_w : ℚ

/-- Lines 143-146 of `collect_telemetry`:

    net_sent = (net_now.bytes_sent - net_prev.bytes_sent) / 1024 / interval
    net_recv = (net_now.bytes_recv - net_prev.bytes_recv) / 1024 / interval
    disk_r   = (disk_now.read_bytes - disk_prev.read_bytes) / 1024 / interval
    disk_w   = (disk_now.write_bytes - disk_prev.write_bytes) / 1024 / interval
-/
def rateTracker (net_prev net_now : NetCounters) (disk_prev disk_now : DiskCounters)
    (interval : ℚ) : TickRates :=
  { net_sent := (net_now.bytes_sent - net_prev.bytes_sent) / 1024 / interval
    net_recv := (net_now.bytes_recv - net_prev.bytes_recv) / 1024 / interval
    disk_r := (disk_now.read_bytes - disk_prev.read_bytes) / 1024 / interval
    disk_w := (disk_now.write_bytes - disk_prev.write_bytes) / 1024 / interval }

/-! ### ProcessRanker

Embeds lines 150-163.  A per-process read either succeeds with a
`ProcEntry` (the dict built at lines 153-158) or fails, in which case
the `except: continue` drops it.  A failed read is modelled as `none`
in the enumeration. -/

/-- One successfully read process: the dict `{pid, name, cpu, mem}`
built at lines 153-158. -/
structure ProcEntry where
  pid : Int
  name : String
  cpu : ℚ
  mem : ℚ
deriving DecidableEq

/-- Lines 151-160: the `processes` list accumulated by appending each
successful read and skipping (`continue`) each failed one. -/
def surviving (reads : List (Option ProcEntry)) : List ProcEntry :=
  reads.filterMap id

/-- Line 162: `sorted(processes, key=lambda x: x["cpu"], reverse=True)[:10]`.
Python `sorted` is a stable sort; with `reverse=True` it is the stable
descending sort, i.e. insertion sort with "insert `a` before `b` iff
`key a ≥ key b`". -/
def topCpuOf (l : List ProcEntry) : List ProcEntry :=
  (List.insertionSort (fun a b => b.cpu ≤ a.cpu) l).take 10

/-- Line 163: `sorted(processes, key=lambda x: x["mem"], reverse=True)[:10]`. -/
def topMemOf (l : List ProcEntry) : List ProcEntry :=
  (List.insertionSort (fun a b => b.mem ≤ a.mem) l).take 10

/-- Lines 150-163 as one step: build the surviving list, then the two
rankings. -/
def processRanker (reads : List (Option ProcEntry)) : List ProcEntry × List ProcEntry :=
  (topCpuOf (surviving reads), topMemOf (surviving reads))

/-! ### SamplingLoop

Embeds lines 112-184 of `collect_telemetry`.  The priming reads
(lines 114-123) establish OS-side baselines and produce no Sample;
they are not part of the modelled state.  Line 125 computes
`samples = duration // interval` (Python floor division on the
integers the program is configured with).  The `for i in
range(samples)` body (lines 128-178) performs the metric reads and
appends one assembled log dict per iteration; the surrounding `try`
(line 127) catches only `KeyboardInterrupt` (line 180), after which
control falls through to the `write_csv` call at line 184.  Any other
exception raised by a metric read propagates out of
`collect_telemetry`, skipping line 184.

The environment is modelled per tick: either every read of the tick
succeeds and yields the assembled `Sample`, or `KeyboardInterrupt`
arrives during the tick, or some whole-system metric read raises a
non-`KeyboardInterrupt` exception during the tick.  In the latter two
cases nothing is appended for that tick (the append at line 165 is
the last statement of the body). -/

/-- One assembled log dict (lines 165-178). -/
structure Sample where
  ts : ℚ
  time : String
  cpu : ℚ
  ram : ℚ
  ram_gb : ℚ
  disk_r : ℚ
  disk_w : ℚ
  net_s : ℚ
  net_r : ℚ
  charging : Bool
  top_cpu : List ProcEntry
  top_mem : List ProcEntry

/-- What the environment does during one loop iteration. -/
inductive TickEvent where
  | ok (s : Sample)
  | interrupt
  | fatal

/-- How the `for` loop of lines 128-178 ended. -/
inductive ExitKind where
  | completed
  | interrupted
  | fatalAbort
deriving DecidableEq

/-- The `for i in range(samples)` loop (lines 128-178) inside the
`try` of line 127: `remaining` iterations are left, `i` is the
current index, `acc` is the `logs` list built so far.  A tick that
completes appends its Sample (line 165); `KeyboardInterrupt` is
caught at line 180 and ends the loop; any other exception ends the
loop by propagating. -/
def runLoop (env : Nat → TickEvent) : Nat → Nat → List Sample → List Sample × ExitKind
  | 0, _, acc => (acc, ExitKind.completed)
  | n + 1, i, acc =>
    match env i with
    | TickEvent.ok s => runLoop env n (i + 1) (acc ++ [s])
    | TickEvent.interrupt => (acc, ExitKind.interrupted)
    | TickEvent.fatal => (acc, ExitKind.fatalAbort)

/-- Result of one run of `collect_telemetry`. -/
structure RunResult where
  logs : List Sample
  exit : ExitKind
  writeCalls : List (List Sample)

/-- Lines 125-184 of `collect_telemetry`: compute the tick count,
run the loop, and invoke `write_csv` on `logs` (line 184) unless a
non-`KeyboardInterrupt` exception propagated past the
`except KeyboardInterrupt` handler, in which case line 184 is never
reached.  `writeCalls` records the records passed to `write_csv`, in
order of invocation. -/
def collect_telemetry (env : Nat → TickEvent) (duration interval : Nat) : RunResult :=
  let samples := duration / interval
  match runLoop env samples 0 [] with
  | (logs, ExitKind.fatalAbort) => { logs := logs, exit := ExitKind.fatalAbort, writeCalls := [] }
  | (logs, e) => { logs := logs, exit := e, writeCalls := [logs] }

/-- Environment for the C7 counterexample: the first tick succeeds,
then a whole-system metric read raises a non-`KeyboardInterrupt`
exception during the second tick. -/
def envFatalAfterOne : Nat → TickEvent :=
  fun j => if j < 1 then TickEvent.ok ⟨0, "", 0, 0, 0, 0, 0, 0, 0, false, [], []⟩
    else TickEvent.fatal

/-! ### TableWriter (`write_csv`, lines 48-99)

Lines 52-64 build `fields`, the `DictWriter` field-name list: the 11
scalar columns, then for each `i` in 1..10 the six names
`top_cpu_i_pid, top_cpu_i_name, top_cpu_i_value, top_mem_i_pid,
top_mem_i_name, top_mem_i_value`.  Lines 71-96 build one row dict per
log and `DictWriter.writerow` renders, for each field name in order,
the dict's value, or its `restval` default `""` when the key is
absent.  `writeheader` (line 69) emits the field names as the first
row.  The numeric string rendering of Python is abstracted by `Repr`
on `ℚ`; the claims under study concern the schema, not number
formatting. -/

/-- Lines 52-58: the scalar column names, in order. -/
def scalarNames : List String :=
  ["timestamp_unix", "timestamp_human", "hw_label",
   "cpu_percent", "ram_percent", "ram_used_gb",
   "disk_read_kb_s", "disk_write_kb_s",
   "net_sent_kb_s", "net_recv_kb_s",
   "charging"]

/-- The f-string `f"top_cpu_{i}_{part}"` pattern of lines 62 and 87-89. -/
def cpuName (i : Nat) (part : String) : String :=
  "top_cpu_" ++ Nat.repr i ++ "_" ++ part

/-- The f-string `f"top_mem_{i}_{part}"` pattern of lines 63 and 92-94. -/
def memName (i : Nat) (part : String) : String :=
  "top_mem_" ++ Nat.repr i ++ "_" ++ part

/-- Lines 52-64: the full `fields` list handed to `csv.DictWriter`.
The loop `for i in range(1, 11)` appends, per index `i`, the
`top_cpu_i` triple and then the `top_mem_i` triple. -/
def fields : List String :=
  scalarNames ++ (List.range' 1 10).flatMap (fun i =>
    [cpuName i "pid", cpuName i "name", cpuName i "value",
     memName i "pid", memName i "name", memName i "value"])

/-- Modelled from the spec (§4.4 wording, for comparison with
`fields`): the 11 scalar columns, followed by ALL ten `top_cpu`
triples, followed by ALL ten `top_mem` triples. -/
def fieldsSpecOrder : List String :=
  scalarNames ++ (List.range' 1 10).flatMap (fun i =>
    [cpuName i "pid", cpuName i "name", cpuName i "value"]) ++
  (List.range' 1 10).flatMap (fun i =>
    [memName i "pid", memName i "name", memName i "value"])

/-- Lines 72-84: the scalar entries of one row dict. -/
def scalarCells (label : String) (lg : Sample) : List (String × String) :=
  [("timestamp_unix", reprStr lg.ts),
   ("timestamp_human", lg.time),
   ("hw_label", label),
   ("cpu_percent", reprStr lg.cpu),
   ("ram_percent", reprStr lg.ram),
   ("ram_used_gb", reprStr lg.ram_gb),
   ("disk_read_kb_s", reprStr lg.disk_r),
   ("disk_write_kb_s", reprStr lg.disk_w),
   ("net_sent_kb_s", reprStr lg.net_s),
   ("net_recv_kb_s", reprStr lg.net_r),
   ("charging", toString lg.charging)]

/-- Lines 86-89: `for i, p in enumerate(log["top_cpu"], 1)` adds the
three `top_cpu_i` entries for each ranked process. -/
def cpuCells (l : List ProcEntry) : List (String × String) :=
  (List.enumFrom 1 l).flatMap (fun ip =>
    [(cpuName ip.1 "pid", toString ip.2.pid),
     (cpuName ip.1 "name", ip.2.name),
     (cpuName ip.1 "value", reprStr ip.2.cpu)])

/-- Lines 91-94: the `top_mem_i` entries. -/
def memCells (l : List ProcEntry) : List (String × String) :=
  (List.enumFrom 1 l).flatMap (fun ip =>
    [(memName ip.1 "pid", toString ip.2.pid),
     (memName ip.1 "name", ip.2.name),
     (memName ip.1 "value", reprStr ip.2.mem)])

/-- The complete row dict of lines 72-94 (all keys are distinct, so
the association list is a faithful dict model). -/
def rowCells (label : String) (lg : Sample) : List (String × String) :=
  scalarCells label lg ++ cpuCells lg.top_cpu ++ memCells lg.top_mem

/-- `DictWriter` cell rendering: the dict value for the field name, or
the `restval` default `""` when the row dict has no such key. -/
def cellValue (cells : List (String × String)) (fieldName : String) : String :=
  (cells.lookup fieldName).getD ""

/-- `DictWriter.writerow` (line 96): one cell per field name, in
field order. -/
def renderRow (label : String) (lg : Sample) : List String :=
  fields.map (cellValue (rowCells label lg))

/-- Observable outcome of one `write_csv` call (lines 66-99).
`ioOk` abstracts whether the file I/O succeeds; `raised` records
whether an exception escapes `write_csv` to its caller; `file` is the
written contents (header row, then one row per log); `logsAfter` is
the `logs` list after the call (the function only reads it).  The
`except Exception` at line 98 catches every failure and prints, so
`raised` is `false` on both paths and the function returns `None`
either way: no error value reaches the caller. -/
structure WriteResult where
  file : Option (List (List String))
  printedError : Bool
  raised : Bool
  logsAfter : List Sample

/-- Lines 66-99 of `write_csv`: on success, write the header (line 69)
and then one rendered row per log (lines 71-96); on an I/O failure,
print `[!] Failed to write CSV` (line 99) and return normally. -/
def write_csv (label : String) (logs : List Sample) (ioOk : Bool) : WriteResult :=
  if ioOk then
    { file := some (fields :: logs.map (renderRow label)),
      printedError := false, raised := false, logsAfter := logs }
  else
    { file := none, printedError := true, raised := false, logsAfter := logs }

/-- A write failure is reported to the CALLER of `write_csv` only if
an exception (or error value) escapes the call; `write_csv` returns
`None` on every path, so a propagating exception is the only possible
channel. -/
def failureReportedToCaller (r : WriteResult) : Prop :=
  r.raised = true

/-! ### Stable-sort facts

The descending insertion sort used to model Python `sorted(...,
reverse=True)` is sorted and stable.  Stability is expressed through
filters: for every key value `v`, the elements of key `v` appear in
the output in exactly their input order. -/

theorem sorted_key_insertionSort {α : Type} (k : α → ℚ) (l : List α) :
    List.Sorted (fun x y => k y ≤ k x) (List.insertionSort (fun x y => k y ≤ k x) l) := by
  haveI : IsTotal α (fun x y => k y ≤ k x) := ⟨fun a b => le_total (k b) (k a)⟩
  haveI : IsTrans α (fun x y => k y ≤ k x) := ⟨fun a b c h1 h2 => le_trans h2 h1⟩
  exact List.sorted_insertionSort _ l

theorem filter_keyEq_orderedInsert {α : Type} (k : α → ℚ) (a : α) (v : ℚ) :
    ∀ l : List α,
      (List.orderedInsert (fun x y => k y ≤ k x) a l).filter (fun x => k x = v) =
        (if k a = v then [a] else []) ++ l.filter (fun x => k x = v) := by
  intro l
  induction l with
  | nil => by_cases hav : k a = v <;> simp [List.orderedInsert, List.filter, hav]
  | cons b l ih =>
      by_cases hab : k b ≤ k a
      · simp only [List.orderedInsert, if_pos hab]
        by_cases hav : k a = v <;> simp [List.filter, hav]
      · simp only [List.orderedInsert, if_neg hab]
        have hbv : ¬ (k b = v) ∨ ¬ (k a = v) := by
          by_cases hav : k a = v
          · left
            intro hb
            exact hab (le_of_eq (hb.trans hav.symm))
          · right; exact hav
        by_cases hkb : k b = v
        · rcases hbv with h | h
          · exact absurd hkb h
          · simp [List.filter, hkb, ih, h]
        · simp [List.filter, hkb, ih]

theorem filter_keyEq_insertionSort {α : Type} (k : α → ℚ) (v : ℚ) :
    ∀ l : List α,
      (List.insertionSort (fun x y => k y ≤ k x) l).filter (fun x => k x = v) =
        l.filter (fun x => k x = v) := by
  intro l
  induction l with
  | nil => rfl
  | cons a l ih =>
      simp only [List.insertionSort]
      rw [filter_keyEq_orderedInsert k a v, ih]
      by_cases hav : k a = v <;> simp [List.filter, hav]

/-! ### Claim theorems for RateTracker and ProcessRanker -/

/-- Claim C1: for every pair of cumulative counter readings and every
positive interval, each of the four per-second rates equals
`(curr - prev)/1024/interval` exactly; when `curr < prev` the raw
negative delta is passed through unclamped (the rate is negative, not
zeroed). -/
theorem rateTracker_delta_correct (net_prev net_now : NetCounters)
    (disk_prev disk_now : DiskCounters) (interval : ℚ) (hpos : 0 < interval) :
    (rateTracker net_prev net_now disk_prev disk_now interval).net_sent
        = (net_now.bytes_sent - net_prev.bytes_sent) / 1024 / interval ∧
    (rateTracker net_prev net_now disk_prev disk_now interval).net_recv
        = (net_now.bytes_recv - net_prev.bytes_recv) / 1024 / interval ∧
    (rateTracker net_prev net_now disk_prev disk_now interval).disk_r
        = (disk_now.read_bytes - disk_prev.read_bytes) / 1024 / interval ∧
    (rateTracker net_prev net_now disk_prev disk_now interval).disk_w
        = (disk_now.write_bytes - disk_prev.write_bytes) / 1024 / interval ∧
    (net_now.bytes_sent < net_prev.bytes_sent →
      (rateTracker net_prev net_now disk_prev disk_now interval).net_sent < 0) ∧
    (net_now.bytes_recv < net_prev.bytes_recv →
      (rateTracker net_prev net_now disk_prev disk_now interval).net_recv < 0) ∧
    (disk_now.read_bytes < disk_prev.read_bytes →
      (rateTracker net_prev net_now disk_prev disk_now interval).disk_r < 0) ∧
    (disk_now.write_bytes < disk_prev.write_bytes →
      (rateTracker net_prev net_now disk_prev disk_now interval).disk_w < 0) := by
  refine ⟨rfl, rfl, rfl, rfl, ?_, ?_, ?_, ?_⟩ <;>
    · intro hlt
      have hneg : _ - _ < (0 : ℚ) := sub_neg.mpr hlt
      exact div_neg_of_neg_of_pos (div_neg_of_neg_of_pos hneg (by norm_num)) hpos

/-- Witness for C1 at concrete counters: interval 5, sent delta 1024
(rate 0.2), recv delta negative (counter reset, rate negative). -/
theorem rateTracker_delta_correct_witness :
    (0 : ℚ) < 5 ∧
    (rateTracker ⟨0, 100⟩ ⟨1024, 50⟩ ⟨0, 0⟩ ⟨2048, 512⟩ 5).net_sent
        = ((1024 : ℚ) - 0) / 1024 / 5 := by
  have h := rateTracker_delta_correct ⟨0, 100⟩ ⟨1024, 50⟩ ⟨0, 0⟩ ⟨2048, 512⟩ 5 (by norm_num)
  exact ⟨by norm_num, h.1⟩

/-- Claim C3: `top_cpu` is the first `min(n,10)` elements of the stable
descending sort of the surviving list by `cpu`, and `top_mem` likewise
by `mem`: the rankings are sorted descending (every earlier element's
key is at least every later one's, hence adjacent elements satisfy
`value[i] ≥ value[i+1]`), and within any equal key value the original
enumeration order is preserved (no secondary key). -/
theorem ranking_sorted_and_stable (l : List ProcEntry) (v : ℚ) :
    topCpuOf l = (List.insertionSort (fun a b => b.cpu ≤ a.cpu) l).take 10 ∧
    topMemOf l = (List.insertionSort (fun a b => b.mem ≤ a.mem) l).take 10 ∧
    List.Sorted (fun a b => b.cpu ≤ a.cpu) (topCpuOf l) ∧
    List.Sorted (fun a b => b.mem ≤ a.mem) (topMemOf l) ∧
    (List.insertionSort (fun a b => b.cpu ≤ a.cpu) l).filter (fun x => x.cpu = v)
        = l.filter (fun x => x.cpu = v) ∧
    (List.insertionSort (fun a b => b.mem ≤ a.mem) l).filter (fun x => x.mem = v)
        = l.filter (fun x => x.mem = v) := by
  refine ⟨rfl, rfl, ?_, ?_, ?_, ?_⟩
  · have h := sorted_key_insertionSort (α := ProcEntry) (fun p => p.cpu) l
    exact h.sublist (List.take_sublist _ _)
  · have h := sorted_key_insertionSort (α := ProcEntry) (fun p => p.mem) l
    exact h.sublist (List.take_sublist _ _)
  · exact filter_keyEq_insertionSort (fun p => p.cpu) v l
  · exact filter_keyEq_insertionSort (fun p => p.mem) v l

/-- Claim C4: for a process list of size `n`, `top_cpu` and `top_mem`
each have length exactly `min n 10`, and both are drawn from the same
surviving list. -/
theorem ranking_size_bound (l : List ProcEntry) :
    (topCpuOf l).length = min l.length 10 ∧
    (topMemOf l).length = min l.length 10 ∧
    (∀ p ∈ topCpuOf l, p ∈ l) ∧
    (∀ p ∈ topMemOf l, p ∈ l) := by
  refine ⟨?_, ?_, ?_, ?_⟩
  · rw [topCpuOf, List.length_take, List.length_insertionSort, Nat.min_comm]
  · rw [topMemOf, List.length_take, List.length_insertionSort, Nat.min_comm]
  · intro p hp
    have hmem := (List.take_sublist 10 _).mem hp
    exact (List.perm_insertionSort (fun a b => b.cpu ≤ a.cpu) l).mem_iff.mp hmem
  · intro p hp
    have hmem := (List.take_sublist 10 _).mem hp
    exact (List.perm_insertionSort (fun a b => b.mem ≤ a.mem) l).mem_iff.mp hmem

/-- Helper: the surviving list keeps exactly the successful reads. -/
theorem surviving_length (reads : List (Option ProcEntry)) :
    (surviving reads).length = reads.length - reads.countP (fun o => o.isNone) := by
  induction reads with
  | nil => rfl
  | cons o reads ih =>
      have hle : reads.countP (fun o => o.isNone) ≤ reads.length :=
        List.countP_le_length _
      cases o with
      | none =>
          have h1 : surviving (none :: reads) = surviving reads := rfl
          have h2 : (none :: reads : List (Option ProcEntry)).countP (fun o => o.isNone)
              = reads.countP (fun o => o.isNone) + 1 := by
            simp [List.countP_cons]
          rw [h1, h2, ih, List.length_cons]
          omega
      | some p =>
          have h1 : surviving (some p :: reads) = p :: surviving reads := rfl
          have h2 : (some p :: reads : List (Option ProcEntry)).countP (fun o => o.isNone)
              = reads.countP (fun o => o.isNone) := by
            simp [List.countP_cons]
          rw [h1, h2, List.length_cons, List.length_cons, ih]
          omega

/-- Claim C5: if `k` of the `n` per-process reads fail, the ranking step
(which never raises, being a total function) silently excludes exactly
the failing processes, computes both rankings over the remaining
`n - k`, and an empty surviving set yields two empty sequences. -/
theorem ranking_partial_failure (reads : List (Option ProcEntry)) :
    (surviving reads).length = reads.length - reads.countP (fun o => o.isNone) ∧
    (∀ p, p ∈ surviving reads ↔ some p ∈ reads) ∧
    (processRanker reads).1.length = min (surviving reads).length 10 ∧
    (processRanker reads).2.length = min (surviving reads).length 10 ∧
    (∀ p ∈ (processRanker reads).1, p ∈ surviving reads) ∧
    (∀ p ∈ (processRanker reads).2, p ∈ surviving reads) ∧
    (surviving reads = [] → processRanker reads = ([], [])) := by
  refine ⟨surviving_length reads, ?_, ?_, ?_, ?_, ?_, ?_⟩
  · intro p
    constructor
    · intro hp
      rcases List.mem_filterMap.mp hp with ⟨o, ho, hid⟩
      cases o with
      | none => cases hid
      | some q => cases hid; exact ho
    · intro hp
      exact List.mem_filterMap.mpr ⟨some p, hp, rfl⟩
  · exact (ranking_size_bound (surviving reads)).1
  · exact (ranking_size_bound (surviving reads)).2.1
  · exact (ranking_size_bound (surviving reads)).2.2.1
  · exact (ranking_size_bound (surviving reads)).2.2.2
  · intro hempty
    simp [processRanker, hempty, topCpuOf, topMemOf]

/-- Helper: with an all-succeeding environment the loop appends one
Sample per iteration and completes. -/
theorem runLoop_all_ok (f : Nat → Sample) :
    ∀ (n i : Nat) (acc : List Sample),
      runLoop (fun j => TickEvent.ok (f j)) n i acc
        = (acc ++ (List.range' i n).map f, ExitKind.completed) := by
  intro n
  induction n with
  | zero => intro i acc; simp [runLoop]
  | succ n ih =>
      intro i acc
      rw [runLoop]
      show runLoop (fun j => TickEvent.ok (f j)) n (i + 1) (acc ++ [f i]) = _
      rw [ih (i + 1) (acc ++ [f i]), List.range'_succ]
      simp

/-- Helper: if ticks `i ≤ j < m` succeed and tick `m` is where the
loop stops with event `e`, the loop ends with exactly the Samples of
ticks `i..m-1` appended. -/
theorem runLoop_stops_at (f : Nat → Sample) (m : Nat) (env : Nat → TickEvent)
    (henv : ∀ j, j < m → env j = TickEvent.ok (f j)) :
    ∀ (n i : Nat) (acc : List Sample), i ≤ m → m < i + n →
      (env m = TickEvent.interrupt →
        runLoop env n i acc = (acc ++ (List.range' i (m - i)).map f, ExitKind.interrupted)) ∧
      (env m = TickEvent.fatal →
        runLoop env n i acc = (acc ++ (List.range' i (m - i)).map f, ExitKind.fatalAbort)) := by
  intro n
  induction n with
  | zero => intro i acc him hmi; omega
  | succ n ih =>
      intro i acc him hmi
      by_cases hi : i < m
      · have hstep : env i = TickEvent.ok (f i) := henv i hi
        have hrange : List.range' i (m - i) = i :: List.range' (i + 1) (m - (i + 1)) := by
          have h1 : m - i = (m - (i + 1)) + 1 := by omega
          rw [h1, List.range'_succ]
        have hrec := ih (i + 1) (acc ++ [f i]) (by omega) (by omega)
        constructor
        · intro hm
          rw [runLoop, hstep]
          show runLoop env n (i + 1) (acc ++ [f i]) = _
          rw [hrec.1 hm, hrange]
          simp
        · intro hm
          rw [runLoop, hstep]
          show runLoop env n (i + 1) (acc ++ [f i]) = _
          rw [hrec.2 hm, hrange]
          simp
      · have hieq : i = m := by omega
        subst hieq
        constructor
        · intro hm
          rw [runLoop, hm]
          simp
        · intro hm
          rw [runLoop, hm]
          simp

/-- Claim C2: for positive `interval ≤ duration`, absent cancellation
the loop executes exactly `duration / interval` (floor) ticks and the
resulting record has exactly that many entries, one Sample appended
per tick (entry `j` is tick `j`'s Sample). -/
theorem tick_count_exact (f : Nat → Sample) (duration interval : Nat)
    (hpos : 0 < interval) (hle : interval ≤ duration) :
    (collect_telemetry (fun j => TickEvent.ok (f j)) duration interval).logs
        = (List.range (duration / interval)).map f ∧
    (collect_telemetry (fun j => TickEvent.ok (f j)) duration interval).logs.length
        = duration / interval ∧
    (collect_telemetry (fun j => TickEvent.ok (f j)) duration interval).exit
        = ExitKind.completed := by
  have hrun := runLoop_all_ok f (duration / interval) 0 []
  have hcollect : collect_telemetry (fun j => TickEvent.ok (f j)) duration interval
      = { logs := (List.range (duration / interval)).map f,
          exit := ExitKind.completed,
          writeCalls := [(List.range (duration / interval)).map f] } := by
    rw [collect_telemetry]
    rw [hrun]
    rw [List.range_eq_range']
    simp
  rw [hcollect]
  refine ⟨rfl, by simp, rfl⟩

/-- Witness for C2: duration 10, interval 5 gives exactly 2 ticks. -/
theorem tick_count_exact_witness :
    (0 : Nat) < 5 ∧ (5 : Nat) ≤ 10 ∧
    (collect_telemetry (fun _ => TickEvent.ok
        ⟨0, "", 0, 0, 0, 0, 0, 0, 0, false, [], []⟩) 10 5).logs.length = 2 := by
  have h := tick_count_exact (fun _ => ⟨0, "", 0, 0, 0, 0, 0, 0, 0, false, [], []⟩)
    10 5 (by norm_num) (by norm_num)
  exact ⟨by norm_num, by norm_num, h.2.1⟩

/-- Claim C6: if `KeyboardInterrupt` arrives during tick `m` (with `m`
below the scheduled count), the loop stops issuing ticks, the record
holds exactly the `m` already-appended Samples (no partial tick
appended, none discarded), and `write_csv` is still invoked exactly
once on that record. -/
theorem interrupt_preserves_data (f : Nat → Sample) (duration interval m : Nat)
    (hm : m < duration / interval) :
    (collect_telemetry
        (fun j => if j < m then TickEvent.ok (f j) else TickEvent.interrupt)
        duration interval).logs = (List.range m).map f ∧
    (collect_telemetry
        (fun j => if j < m then TickEvent.ok (f j) else TickEvent.interrupt)
        duration interval).exit = ExitKind.interrupted ∧
    (collect_telemetry
        (fun j => if j < m then TickEvent.ok (f j) else TickEvent.interrupt)
        duration interval).writeCalls = [(List.range m).map f] := by
  have henv : ∀ j, j < m →
      (fun j => if j < m then TickEvent.ok (f j) else TickEvent.interrupt) j
        = TickEvent.ok (f j) := by
    intro j hj
    simp [hj]
  have hstop := (runLoop_stops_at f m _ henv (duration / interval) 0 [] (by omega)
    (by omega)).1 (by simp)
  have hcollect : collect_telemetry
      (fun j => if j < m then TickEvent.ok (f j) else TickEvent.interrupt)
      duration interval
      = { logs := (List.range m).map f,
          exit := ExitKind.interrupted,
          writeCalls := [(List.range m).map f] } := by
    rw [collect_telemetry]
    rw [hstop]
    rw [List.range_eq_range']
    simp
  rw [hcollect]
  exact ⟨rfl, rfl, rfl⟩

/-- Witness for C6: duration 10, interval 5, interrupted during the
second tick (m = 1): one Sample is kept and written. -/
theorem interrupt_preserves_data_witness :
    (1 : Nat) < 10 / 5 ∧
    (collect_telemetry
        (fun j => if j < 1 then TickEvent.ok ⟨0, "", 0, 0, 0, 0, 0, 0, 0, false, [], []⟩
          else TickEvent.interrupt) 10 5).writeCalls
      = [[⟨0, "", 0, 0, 0, 0, 0, 0, 0, false, [], []⟩]] := by
  have h := interrupt_preserves_data
    (fun _ => ⟨0, "", 0, 0, 0, 0, 0, 0, 0, false, [], []⟩) 10 5 1 (by norm_num)
  exact ⟨by norm_num, by rw [h.2.2]; rfl⟩

/-- Counterexample to claim C7 as stated: with duration 10 and
interval 5, one completed tick and a fatal metric failure during the
second tick, the one collected Sample is NOT written out: the
exception is not a `KeyboardInterrupt`, so it propagates past the
handler at line 180 and `write_csv` (line 184) is never invoked. -/
theorem fatal_abort_counterexample :
    (collect_telemetry envFatalAfterOne 10 5).logs.length = 1 ∧
    (collect_telemetry envFatalAfterOne 10 5).writeCalls = [] := ⟨rfl, rfl⟩

/-- Claim C7 amended: if a whole-system metric read raises a
non-`KeyboardInterrupt` exception during tick `m`, the run aborts; the
`m` Samples collected before the failure remain in the in-memory
record, but `write_csv` is NOT invoked (the exception propagates past
the `except KeyboardInterrupt` handler, skipping line 184), so the
collected Samples are not persisted. -/
theorem fatal_abort_skips_write (f : Nat → Sample) (duration interval m : Nat)
    (hm : m < duration / interval) :
    (collect_telemetry
        (fun j => if j < m then TickEvent.ok (f j) else TickEvent.fatal)
        duration interval).logs = (List.range m).map f ∧
    (collect_telemetry
        (fun j => if j < m then TickEvent.ok (f j) else TickEvent.fatal)
        duration interval).exit = ExitKind.fatalAbort ∧
    (collect_telemetry
        (fun j => if j < m then TickEvent.ok (f j) else TickEvent.fatal)
        duration interval).writeCalls = [] := by
  have henv : ∀ j, j < m →
      (fun j => if j < m then TickEvent.ok (f j) else TickEvent.fatal) j
        = TickEvent.ok (f j) := by
    intro j hj
    simp [hj]
  have hstop := (runLoop_stops_at f m _ henv (duration / interval) 0 [] (by omega)
    (by omega)).2 (by simp)
  have hcollect : collect_telemetry
      (fun j => if j < m then TickEvent.ok (f j) else TickEvent.fatal)
      duration interval
      = { logs := (List.range m).map f,
          exit := ExitKind.fatalAbort,
          writeCalls := [] } := by
    rw [collect_telemetry]
    rw [hstop]
    rw [List.range_eq_range']
    simp
  rw [hcollect]
  exact ⟨rfl, rfl, rfl⟩

/-- Witness for the amended C7 at duration 10, interval 5, fatal
failure during the second tick. -/
theorem fatal_abort_skips_write_witness :
    (1 : Nat) < 10 / 5 ∧
    (collect_telemetry envFatalAfterOne 10 5).exit = ExitKind.fatalAbort := by
  have h := fatal_abort_skips_write
    (fun _ => ⟨0, "", 0, 0, 0, 0, 0, 0, 0, false, [], []⟩) 10 5 1 (by norm_num)
  refine ⟨by norm_num, ?_⟩
  have heq : envFatalAfterOne
      = (fun j => if j < 1 then TickEvent.ok ⟨0, "", 0, 0, 0, 0, 0, 0, 0, false, [], []⟩
          else TickEvent.fatal) := rfl
  rw [heq]
  exact h.2.1

/-- Counterexample to claim C9 as stated: on an I/O failure the
exception is caught by the `except Exception` handler at line 98 and
only printed; `write_csv` returns normally, so the failure is NOT
reported to its caller (the caller cannot distinguish failure from
success and so cannot know to retry). -/
theorem write_failure_counterexample :
    ¬ failureReportedToCaller (write_csv "label" [] false) := by
  intro h
  simp [failureReportedToCaller, write_csv] at h

/-- Claim C9 amended: on an I/O failure `write_csv` catches the
exception and reports it only by printing a console message; no
exception propagates and no error value is returned to the caller;
the in-memory record is neither mutated nor discarded. -/
theorem write_failure_swallowed (label : String) (logs : List Sample) :
    (write_csv label logs false).raised = false ∧
    (write_csv label logs false).printedError = true ∧
    (write_csv label logs false).logsAfter = logs ∧
    ¬ failureReportedToCaller (write_csv label logs false) := by
  refine ⟨rfl, rfl, rfl, ?_⟩
  intro h
  simp [failureReportedToCaller, write_csv] at h

/-- Claim C10: `write_csv` always writes the header row before any
data rows, and for an empty record the output file is exactly the
fixed 71-column header (11 scalar columns plus 10 x 6 ranking
columns) with zero data rows. -/
theorem write_csv_header_first (label : String) (logs : List Sample) :
    (write_csv label logs true).file = some (fields :: logs.map (renderRow label)) ∧
    fields.length = 71 ∧
    scalarNames.length = 11 ∧
    (write_csv label [] true).file = some [fields] := by
  exact ⟨rfl, rfl, rfl, rfl⟩

/-! ### Schema facts (`write_csv` column order and blank slots) -/

/-- Counterexample to claim C8 as stated: the written column order is
NOT the 11 scalar columns followed by all ten `top_cpu` triples
followed by all ten `top_mem` triples.  Lines 60-64 interleave the
triples per rank index: column 15 (index 14) is `top_mem_1_pid`,
where the claimed order would put `top_cpu_2_pid`. -/
theorem fields_order_counterexample : fields ≠ fieldsSpecOrder := by decide

theorem lookup_none_of_keys_ne (key : String) :
    ∀ l : List (String × String), (∀ kv ∈ l, kv.1 ≠ key) → l.lookup key = none := by
  intro l
  induction l with
  | nil => intro _; rfl
  | cons kv l ih =>
      intro h
      have hne : kv.1 ≠ key := h kv (List.mem_cons_self kv l)
      have hbeq : (key == kv.1) = false :=
        beq_eq_false_iff_ne.mpr (fun he => hne he.symm)
      cases kv with
      | mk k v =>
          rw [List.lookup_cons, hbeq]
          exact ih (fun kv hkv => h kv (List.mem_cons_of_mem _ hkv))

theorem mem_scalarCells_keys (label : String) (lg : Sample) (kv : String × String)
    (h : kv ∈ scalarCells label lg) : kv.1 ∈ scalarNames := by
  simp only [scalarCells, List.mem_cons, List.not_mem_nil, or_false] at h
  rcases h with rfl|rfl|rfl|rfl|rfl|rfl|rfl|rfl|rfl|rfl|rfl <;> simp [scalarNames]

theorem cpuCells_key_shape :
    ∀ (l : List ProcEntry) (n : Nat) (kv : String × String),
      kv ∈ (List.enumFrom n l).flatMap (fun ip =>
        [(cpuName ip.1 "pid", toString ip.2.pid),
         (cpuName ip.1 "name", ip.2.name),
         (cpuName ip.1 "value", reprStr ip.2.cpu)]) →
      ∃ j part, n ≤ j ∧ j < n + l.length ∧
        part ∈ (["pid", "name", "value"] : List String) ∧ kv.1 = cpuName j part := by
  intro l
  induction l with
  | nil => intro n kv h; simp [List.enumFrom] at h
  | cons p l ih =>
      intro n kv h
      rw [List.enumFrom, List.flatMap_cons] at h
      rcases List.mem_append.mp h with h | h
      · simp only [List.mem_cons, List.not_mem_nil, or_false] at h
        rcases h with rfl|rfl|rfl
        · exact ⟨n, "pid", le_refl n, by simp, by simp, rfl⟩
        · exact ⟨n, "name", le_refl n, by simp, by simp, rfl⟩
        · exact ⟨n, "value", le_refl n, by simp, by simp, rfl⟩
      · rcases ih (n + 1) kv h with ⟨j, part, hj1, hj2, hpart, hkey⟩
        exact ⟨j, part, by omega, by simp only [List.length_cons]; omega, hpart, hkey⟩

theorem memCells_key_shape :
    ∀ (l : List ProcEntry) (n : Nat) (kv : String × String),
      kv ∈ (List.enumFrom n l).flatMap (fun ip =>
        [(memName ip.1 "pid", toString ip.2.pid),
         (memName ip.1 "name", ip.2.name),
         (memName ip.1 "value", reprStr ip.2.mem)]) →
      ∃ j part, n ≤ j ∧ j < n + l.length ∧
        part ∈ (["pid", "name", "value"] : List String) ∧ kv.1 = memName j part := by
  intro l
  induction l with
  | nil => intro n kv h; simp [List.enumFrom] at h
  | cons p l ih =>
      intro n kv h
      rw [List.enumFrom, List.flatMap_cons] at h
      rcases List.mem_append.mp h with h | h
      · simp only [List.mem_cons, List.not_mem_nil, or_false] at h
        rcases h with rfl|rfl|rfl
        · exact ⟨n, "pid", le_refl n, by simp, by simp, rfl⟩
        · exact ⟨n, "name", le_refl n, by simp, by simp, rfl⟩
        · exact ⟨n, "value", le_refl n, by simp, by simp, rfl⟩
      · rcases ih (n + 1) kv h with ⟨j, part, hj1, hj2, hpart, hkey⟩
        exact ⟨j, part, by omega, by simp only [List.length_cons]; omega, hpart, hkey⟩

theorem cpuName_notin_scalar :
    ∀ i < 11, ∀ part ∈ (["pid", "name", "value"] : List String),
      cpuName i part ∉ scalarNames := by decide

theorem memName_notin_scalar :
    ∀ i < 11, ∀ part ∈ (["pid", "name", "value"] : List String),
      memName i part ∉ scalarNames := by decide

theorem cpuName_ne_of_index_ne :
    ∀ i < 11, ∀ j < 11, i ≠ j → ∀ p ∈ (["pid", "name", "value"] : List String),
      ∀ q ∈ (["pid", "name", "value"] : List String), cpuName i p ≠ cpuName j q := by decide

theorem memName_ne_of_index_ne :
    ∀ i < 11, ∀ j < 11, i ≠ j → ∀ p ∈ (["pid", "name", "value"] : List String),
      ∀ q ∈ (["pid", "name", "value"] : List String), memName i p ≠ memName j q := by decide

theorem memName_ne_cpuName :
    ∀ i < 11, ∀ j < 11, ∀ p ∈ (["pid", "name", "value"] : List String),
      ∀ q ∈ (["pid", "name", "value"] : List String), memName i p ≠ cpuName j q := by decide

theorem cpuName_ne_memName :
    ∀ i < 11, ∀ j < 11, ∀ p ∈ (["pid", "name", "value"] : List String),
      ∀ q ∈ (["pid", "name", "value"] : List String), cpuName i p ≠ memName j q := by decide

theorem lookup_rowCells_cpu_none (label : String) (lg : Sample)
    (hmem : lg.top_mem.length ≤ 10)
    (i : Nat) (hi1 : lg.top_cpu.length < i) (hi2 : i ≤ 10)
    (part : String) (hp : part ∈ (["pid", "name", "value"] : List String)) :
    (rowCells label lg).lookup (cpuName i part) = none := by
  apply lookup_none_of_keys_ne
  intro kv hkv
  rcases List.mem_append.mp hkv with hkv | hkv
  · rcases List.mem_append.mp hkv with hkv | hkv
    · intro heq
      have hmemkv : kv.1 ∈ scalarNames := mem_scalarCells_keys label lg kv hkv
      rw [heq] at hmemkv
      exact cpuName_notin_scalar i (by omega) part hp hmemkv
    · rcases cpuCells_key_shape lg.top_cpu 1 kv hkv with ⟨j, q, hj1, hj2, hq, hkey⟩
      rw [hkey]
      exact cpuName_ne_of_index_ne j (by omega) i (by omega) (by omega) q hq part hp
  · rcases memCells_key_shape lg.top_mem 1 kv hkv with ⟨j, q, hj1, hj2, hq, hkey⟩
    rw [hkey]
    exact memName_ne_cpuName j (by omega) i (by omega) q hq part hp

theorem lookup_rowCells_mem_none (label : String) (lg : Sample)
    (hcpu : lg.top_cpu.length ≤ 10)
    (i : Nat) (hi1 : lg.top_mem.length < i) (hi2 : i ≤ 10)
    (part : String) (hp : part ∈ (["pid", "name", "value"] : List String)) :
    (rowCells label lg).lookup (memName i part) = none := by
  apply lookup_none_of_keys_ne
  intro kv hkv
  rcases List.mem_append.mp hkv with hkv | hkv
  · rcases List.mem_append.mp hkv with hkv | hkv
    · intro heq
      have hmemkv : kv.1 ∈ scalarNames := mem_scalarCells_keys label lg kv hkv
      rw [heq] at hmemkv
      exact memName_notin_scalar i (by omega) part hp hmemkv
    · rcases cpuCells_key_shape lg.top_cpu 1 kv hkv with ⟨j, q, hj1, hj2, hq, hkey⟩
      rw [hkey]
      exact cpuName_ne_memName j (by omega) i (by omega) q hq part hp
  · rcases memCells_key_shape lg.top_mem 1 kv hkv with ⟨j, q, hj1, hj2, hq, hkey⟩
    rw [hkey]
    exact memName_ne_of_index_ne j (by omega) i (by omega) (by omega) q hq part hp

/-- Claim C8 amended: the column order is the 11 scalar columns
followed, for each rank index `i` in 1..10, by the `top_cpu_i` triple
and then the `top_mem_i` triple (the cpu and mem triples are
interleaved per index, not grouped); all 71 columns are present in
every row regardless of how many ranking slots were filled, with
unfilled slots rendered blank, not omitted. -/
theorem schema_stability_amended (label : String) (lg : Sample)
    (hcpu : lg.top_cpu.length ≤ 10) (hmem : lg.top_mem.length ≤ 10) :
    fields = scalarNames ++ (List.range' 1 10).flatMap (fun i =>
      [cpuName i "pid", cpuName i "name", cpuName i "value",
       memName i "pid", memName i "name", memName i "value"]) ∧
    fields.length = 71 ∧
    (renderRow label lg).length = 71 ∧
    (∀ i, lg.top_cpu.length < i → i ≤ 10 →
      ∀ part ∈ (["pid", "name", "value"] : List String),
        cellValue (rowCells label lg) (cpuName i part) = "") ∧
    (∀ i, lg.top_mem.length < i → i ≤ 10 →
      ∀ part ∈ (["pid", "name", "value"] : List String),
        cellValue (rowCells label lg) (memName i part) = "") := by
  refine ⟨rfl, rfl, ?_, ?_, ?_⟩
  · rw [renderRow, List.length_map]
    rfl
  · intro i hi1 hi2 part hp
    rw [cellValue, lookup_rowCells_cpu_none label lg hmem i hi1 hi2 part hp]
    rfl
  · intro i hi1 hi2 part hp
    rw [cellValue, lookup_rowCells_mem_none label lg hcpu i hi1 hi2 part hp]
    rfl

/-- Witness for the amended C8: a Sample with no ranked processes has
a 71-cell row whose `top_cpu_1_pid` cell is blank. -/
theorem schema_stability_amended_witness :
    (Sample.mk 0 "" 0 0 0 0 0 0 0 false [] []).top_cpu.length ≤ 10 ∧
    (renderRow "hw" (Sample.mk 0 "" 0 0 0 0 0 0 0 false [] [])).length = 71 ∧
    cellValue (rowCells "hw" (Sample.mk 0 "" 0 0 0 0 0 0 0 false [] []))
      (cpuName 1 "pid") = "" := by
  have h := schema_stability_amended "hw" (Sample.mk 0 "" 0 0 0 0 0 0 0 false [] [])
    (by simp) (by simp)
  exact ⟨by simp, h.2.2.1, h.2.2.2.1 1 (by simp) (by norm_num) "pid" (by simp)⟩
